import Mathlib

/-!
# perfops `run.go`: the run API client and its completion predicates

A shallow embedding of `src/perfops/run.go`.

* Go pointers (`*PingResult`, `*PingItem`, `*PingOutput`, `*Ping`, `*http.Request`) are
  `Option` values, `none` being `nil`.
* A Go function that can panic returns `Except Panic _`; `.error` is the panic, `.ok` is a
  normal return.
* A Go `(value, error)` result is a pair whose second component is `Option GoError`, `none`
  being the `nil` error.
* What `run.go` calls but does not define is taken as a parameter: the client's `do`, the
  helper `newJSONReader`, and what `http.NewRequest` makes of a method and a URL string
  (the parsed URL of the request, or a rejection). The type `U` stands for parsed URLs,
  the values of `url.URL`.
* The receiver of the two service methods and its `client` pointer are taken to be
  non-nil.
-/

set_option autoImplicit false

namespace Perfops

/-! ## Data shapes (run.go, lines 9 to 46) -/

/-- Ping represents the parameters for a ping request. -/
structure Ping where
  Target : String
  Nodes : String
  Location : String
  Limit : Int
deriving DecidableEq, Repr

/-- PingID represents the ID of a ping test; a named string type. -/
structure PingID where
  val : String
deriving DecidableEq, Repr

/-- PingResult represents the result of a ping. -/
structure PingResult where
  NodeID : String
  Output : String
deriving DecidableEq, Repr

/-- PingItem represents an item of a ping output; `Result` is a pointer. -/
structure PingItem where
  ID : String
  Result : Option PingResult
deriving DecidableEq, Repr

/-- PingOutput represents the response of ping output calls; `Items` is a slice of
pointers, a nil slice being the empty list. -/
structure PingOutput where
  ID : String
  Requested : String
  Items : List (Option PingItem)
deriving DecidableEq, Repr

/-! ## Go runtime and standard library pieces the code relies on -/

/-- The ways the modelled code can panic. -/
inductive Panic where
  | nilDereference
  | nilContext
deriving DecidableEq, Repr

/-- A Go error value: the one `errors.New` builds, or any other error a collaborator
hands back (told apart by its kind). -/
inductive GoError where
  | errorString (msg : String)
  | other (kind : String) (msg : String)
deriving DecidableEq, Repr

/-- The `Error()` method: the message of an error value. -/
def GoError.Error : GoError → String
  | .errorString msg => msg
  | .other _ msg => msg

/-- The function `errors.New`. -/
def errors.New (text : String) : GoError :=
  .errorString text

/-- A `context.Context` as far as this code can tell contexts apart: the background
context, which is never cancelled, or a context made by the caller. -/
inductive Context where
  | Background
  | Caller (label : String)
deriving DecidableEq, Repr

/-- An `http.Request` reduced to what `run.go` puts into it: the method, the URL that
`http.NewRequest` parsed from the URL string it was given, the body reader (its bytes,
`none` for a nil body) and the context the request runs under. -/
structure Request (U : Type) where
  Method : String
  URL : U
  Body : Option String
  ctx : Context
deriving DecidableEq, Repr

/-- What the code needs from outside `run.go`, other than the client. -/
structure Runtime (U : Type) where
  /-- The helper `newJSONReader`: the body reader and the error it returns. -/
  newJSONReader : Option Ping → Option String × Option GoError
  /-- What `http.NewRequest` makes of a method and a URL string: the parsed URL it gives
  the request, or `none` when it rejects the method or cannot parse the string. -/
  newRequestURL : String → String → Option U

/-- The function `http.NewRequest`: the URL string is parsed, and the new request runs
under the background context. Its error is dropped by both callers, so only the request
pointer is returned, nil on failure. -/
def http.NewRequest {U : Type} (rt : Runtime U) (method url : String)
    (body : Option String) : Option (Request U) :=
  match rt.newRequestURL method url with
  | some parsed =>
    some { Method := method, URL := parsed, Body := body, ctx := Context.Background }
  | none => none

/-- The method `(*http.Request).WithContext`: panics on a nil context, dereferences the
receiver, and returns a copy of it with the context replaced. -/
def Request.WithContext {U : Type} (r : Option (Request U)) (ctx : Option Context) :
    Except Panic (Option (Request U)) :=
  match ctx with
  | none => .error .nilContext
  | some c =>
    match r with
    | none => .error .nilDereference
    | some req => .ok (some { req with ctx := c })

/-- The destination `raw` of the submission call: `Error` and `ID`. -/
structure PingRaw where
  Error : String
  ID : String
deriving DecidableEq, Repr

/-- The client behind a service: its `BasePath` and its method `do`, which takes the
request and the destination as it stands, and gives back the destination as it leaves it
together with the error. `do` is used at two destination types, so it appears once for
each. -/
structure Client (U : Type) where
  BasePath : String
  doRaw : Option (Request U) → PingRaw → PingRaw × Option GoError
  doOutput : Option (Request U) → Option PingOutput → Option PingOutput × Option GoError

/-- RunService defines the interface for the run API. -/
structure RunService (U : Type) where
  client : Client U

/-! ## Operations (run.go, lines 48 to 101) -/

/-- The method `(*PingResult).IsComplete`, lines 99 to 101: reads `r.NodeID`, which
dereferences the receiver. -/
def PingResult.IsComplete (r : Option PingResult) : Except Panic Bool :=
  match r with
  | none => .error .nilDereference
  | some res => .ok (res.NodeID != "")

/-- The loop of `(*PingOutput).IsComplete`, lines 88 to 93, from counter value `n` over
the items still to visit; the result is the counter when the loop ends. The counter is
never more than the number of items, so the machine `int` does not wrap. -/
def PingOutput.IsComplete.loop : List (Option PingItem) → Nat → Except Panic Nat
  | [], n => .ok n
  | item :: rest, n =>
    match item with
    | none => .error .nilDereference
    | some it =>
      match PingResult.IsComplete it.Result with
      | .error p => .error p
      | .ok false => .ok n
      | .ok true => PingOutput.IsComplete.loop rest (n + 1)

/-- The method `(*PingOutput).IsComplete`, lines 83 to 95. -/
def PingOutput.IsComplete (o : Option PingOutput) : Except Panic Bool :=
  match o with
  | none => .error .nilDereference
  | some out =>
    if out.Requested == "" then
      .ok false
    else
      match PingOutput.IsComplete.loop out.Items 0 with
      | .error p => .error p
      | .ok n => .ok (n == out.Items.length)

/-- The method `(*RunService).Ping`, lines 49 to 68. -/
def RunService.Ping {U : Type} (rt : Runtime U) (s : RunService U) (ctx : Option Context)
    (ping : Option Ping) : Except Panic (PingID × Option GoError) :=
  match rt.newJSONReader ping with
  | (_, some err) => .ok (⟨""⟩, some err)
  | (body, none) =>
    let u := s.client.BasePath ++ "/run/ping"
    let req := http.NewRequest rt "POST" u body
    match Request.WithContext req ctx with
    | .error p => .error p
    | .ok req =>
      match s.client.doRaw req { Error := "", ID := "" } with
      | (_, some err) => .ok (⟨""⟩, some err)
      | (raw, none) =>
        if raw.Error != "" then
          .ok (⟨""⟩, some (errors.New raw.Error))
        else
          .ok (⟨raw.ID⟩, none)

/-- The method `(*RunService).PingOutput`, lines 71 to 79. The parameter `ctx` is not
used by the body. -/
def RunService.PingOutput {U : Type} (rt : Runtime U) (s : RunService U)
    (_ctx : Option Context) (pingID : PingID) : Option PingOutput × Option GoError :=
  let u := s.client.BasePath ++ "/run/ping/" ++ pingID.val
  let req := http.NewRequest rt "GET" u none
  match s.client.doOutput req none with
  | (_, some err) => (none, some err)
  | (v, none) => (v, none)

/-! ## The completion rule in the words of the specification -/

/-- The plain scan of the specification, `all(item.result.nodeId != "" for item in items)`:
every item has a result whose node identifier is non-empty, an absent item or result
counting as incomplete. -/
def allItemsComplete (o : PingOutput) : Bool :=
  o.Items.all fun item =>
    match item with
    | none => false
    | some it =>
      match it.Result with
      | none => false
      | some res => res.NodeID != ""

/-! ## Sample values -/

/-- The complete envelope of the specification: target `example.com`, results of nodes
`n1` and `n2`. -/
def sampleComplete : PingOutput :=
  { ID := "abc123", Requested := "example.com",
    Items := [some { ID := "i1", Result := some { NodeID := "n1", Output := "64 bytes" } },
              some { ID := "i2", Result := some { NodeID := "n2", Output := "" } }] }

/-- The partial envelope of the specification: the second item has no result yet. -/
def samplePartial : PingOutput :=
  { ID := "abc123", Requested := "example.com",
    Items := [some { ID := "i1", Result := some { NodeID := "n1", Output := "64 bytes" } },
              some { ID := "i2", Result := none }] }

/-- An envelope with an empty `requested`, a nil item and an item without result. -/
def sampleUnpopulated : PingOutput :=
  { ID := "", Requested := "", Items := [none, some { ID := "i2", Result := none }] }

/-- An envelope that echoes the target and lists no item. -/
def sampleNoItems : PingOutput :=
  { ID := "abc123", Requested := "example.com", Items := [] }

/-- An envelope as decoded from a reply that lists nothing: `requested` and `items` are
both empty. -/
def sampleEmptyEnvelope : PingOutput :=
  { ID := "abc123", Requested := "", Items := [] }

/-- A probe of `example.com`. -/
def samplePing : Ping :=
  { Target := "example.com", Nodes := "", Location := "", Limit := 0 }

/-- The fields of `url.URL` that the parsed sample URLs set. -/
structure SampleURL where
  Scheme : String
  Host : String
  Path : String
  RawQuery : String
deriving DecidableEq, Repr

/-- What `http.NewRequest` makes of the URL strings of the samples, by `url.Parse`: the
path is held decoded, so `%2F` has become a slash, and the query is split off at the
question mark. The two sample strings that hold `%zz`, which is no valid escape, are
rejected: `https://api.perfops.net/run/ping/%zz` and `%zz/run/ping`. Strings other than
the samples are not in the table. -/
def sampleNewRequestURL (_method url : String) : Option SampleURL :=
  if url = "https://api.perfops.net/run/ping" then
    some { Scheme := "https", Host := "api.perfops.net", Path := "/run/ping",
           RawQuery := "" }
  else if url = "https://api.perfops.net/run/ping/abc123" then
    some { Scheme := "https", Host := "api.perfops.net", Path := "/run/ping/abc123",
           RawQuery := "" }
  else if url = "https://api.perfops.net/run/ping/a b%2F?x" then
    some { Scheme := "https", Host := "api.perfops.net", Path := "/run/ping/a b/",
           RawQuery := "x" }
  else
    none

/-- A runtime whose JSON helper always yields a body and whose request constructor reads
the sample URL strings as above. -/
def sampleRuntime : Runtime SampleURL :=
  { newJSONReader := fun ping =>
      match ping with
      | none => (some "null", none)
      | some p => (some ("target:" ++ p.Target), none),
    newRequestURL := sampleNewRequestURL }

/-- The parsed URL of the submission request of the samples. -/
def sampleSubmitURL : SampleURL :=
  { Scheme := "https", Host := "api.perfops.net", Path := "/run/ping", RawQuery := "" }

/-- The parsed URL of the retrieval request of the samples, for the identifier `abc123`. -/
def sampleOutputURL : SampleURL :=
  { Scheme := "https", Host := "api.perfops.net", Path := "/run/ping/abc123",
    RawQuery := "" }

/-- A client whose `do` overwrites the destination with the given values and returns the
given error, whatever the request. -/
def sampleClient (reply : PingRaw) (out : Option PingOutput) (failure : Option GoError) :
    Client SampleURL :=
  { BasePath := "https://api.perfops.net",
    doRaw := fun _ _ => (reply, failure),
    doOutput := fun _ _ => (out, failure) }

/-- The error of a server that answers with status 500. -/
def sampleServerError : GoError :=
  .other "status" "500 Internal Server Error"

/-- The error a cancelled context yields. -/
def contextCanceled : GoError :=
  .other "context" "context canceled"

/-- The context of a caller who has cancelled it. -/
def cancelledContext : Context :=
  .Caller "cancelled"

/-- A client whose `do` honours the context of the request it is handed: under the
caller's cancelled context the call ends at once with the cancellation error and leaves
the destination alone, under any other context the backend answers. -/
def contextAwareClient : Client SampleURL :=
  { BasePath := "https://api.perfops.net",
    doRaw := fun req dest =>
      match req with
      | none => (dest, some (.other "client" "nil request"))
      | some r =>
        if r.ctx = cancelledContext then (dest, some contextCanceled)
        else ({ Error := "", ID := "abc123" }, none),
    doOutput := fun req dest =>
      match req with
      | none => (dest, some (.other "client" "nil request"))
      | some r =>
        if r.ctx = cancelledContext then (dest, some contextCanceled)
        else (some sampleComplete, none) }

/-- An item that is present and carries a result. -/
def hasResult (item : Option PingItem) : Prop :=
  ∃ it res, item = some it ∧ it.Result = some res

theorem loop_cons_hasResult (it : PingItem) (res : PingResult)
    (rest : List (Option PingItem)) (n : Nat) (hres : it.Result = some res) :
    PingOutput.IsComplete.loop (some it :: rest) n =
      if res.NodeID = "" then .ok n else PingOutput.IsComplete.loop rest (n + 1) := by
  by_cases hn : res.NodeID = ""
  · have hb : (res.NodeID != "") = false := by simp [hn]
    simp [PingOutput.IsComplete.loop, PingResult.IsComplete, hres, hb, hn]
  · have hb : (res.NodeID != "") = true := by simp [hn]
    simp [PingOutput.IsComplete.loop, PingResult.IsComplete, hres, hb, hn]

theorem loop_bounds (items : List (Option PingItem)) :
    ∀ n m, PingOutput.IsComplete.loop items n = .ok m → n ≤ m ∧ m ≤ n + items.length := by
  induction items with
  | nil =>
    intro n m h
    simp only [PingOutput.IsComplete.loop, Except.ok.injEq] at h
    subst h
    simp
  | cons item rest ih =>
    intro n m h
    cases item with
    | none => simp [PingOutput.IsComplete.loop] at h
    | some it =>
      cases hr : it.Result with
      | none => simp [PingOutput.IsComplete.loop, PingResult.IsComplete, hr] at h
      | some res =>
        rw [loop_cons_hasResult it res rest n hr] at h
        by_cases hn : res.NodeID = ""
        · simp only [hn, if_true, Except.ok.injEq] at h
          subst h
          simp
        · simp only [hn, if_false] at h
          have := ih (n + 1) m h
          simp only [List.length_cons]
          omega

theorem loop_of_hasResult (items : List (Option PingItem))
    (hpresent : ∀ item ∈ items, hasResult item) :
    ∀ n, ∃ m, PingOutput.IsComplete.loop items n = .ok m ∧
      (m = n + items.length ↔
        ∀ it res, some it ∈ items → it.Result = some res → res.NodeID ≠ "") := by
  induction items with
  | nil =>
    intro n
    exact ⟨n, by simp [PingOutput.IsComplete.loop], by simp⟩
  | cons item rest ih =>
    intro n
    obtain ⟨it, res, rfl, hres⟩ := hpresent item (List.mem_cons_self _ _)
    have hrest : ∀ x ∈ rest, hasResult x := fun x hx => hpresent x (List.mem_cons_of_mem _ hx)
    by_cases hn : res.NodeID = ""
    · refine ⟨n, by simp [loop_cons_hasResult it res rest n hres, hn], ?_⟩
      constructor
      · intro h
        simp only [List.length_cons] at h
        omega
      · intro h
        exact absurd hn (h it res (List.mem_cons_self _ _) hres)
    · obtain ⟨m, hm, hiff⟩ := ih hrest (n + 1)
      refine ⟨m, by simp [loop_cons_hasResult it res rest n hres, hn, hm], ?_⟩
      constructor
      · intro h it2 res2 hmem hres2
        have hm2 : m = n + 1 + rest.length := by
          simp only [List.length_cons] at h
          omega
        rcases List.mem_cons.mp hmem with heq | hin
        · have : it2 = it := by injection heq
          subst this
          rw [hres] at hres2
          injection hres2 with h3
          subst h3
          exact hn
        · exact hiff.mp hm2 it2 res2 hin hres2
      · intro h
        have : m = n + 1 + rest.length :=
          hiff.mpr (fun it2 res2 hin hres2 => h it2 res2 (List.mem_cons_of_mem _ hin) hres2)
        simp only [List.length_cons]
        omega

theorem allItemsComplete_iff (o : PingOutput)
    (hpresent : ∀ item ∈ o.Items, hasResult item) :
    allItemsComplete o = true ↔
      ∀ it res, some it ∈ o.Items → it.Result = some res → res.NodeID ≠ "" := by
  unfold allItemsComplete
  rw [List.all_eq_true]
  constructor
  · intro h it res hmem hres
    have := h (some it) hmem
    simpa [hres] using this
  · intro h item hmem
    obtain ⟨it, res, rfl, hres⟩ := hpresent item hmem
    have := h it res hmem hres
    simpa [hres] using this

theorem loop_absent_result_after_complete (pre post : List (Option PingItem))
    (it : PingItem) (hit : it.Result = none)
    (hpre : ∀ item ∈ pre, ∃ x res, item = some x ∧ x.Result = some res ∧ res.NodeID ≠ "") :
    ∀ n, PingOutput.IsComplete.loop (pre ++ some it :: post) n
      = .error Panic.nilDereference := by
  induction pre with
  | nil =>
    intro n
    simp [PingOutput.IsComplete.loop, PingResult.IsComplete, hit]
  | cons item rest ih =>
    intro n
    obtain ⟨x, res, rfl, hres, hn⟩ := hpre item (List.mem_cons_self _ _)
    have hrest := ih (fun y hy => hpre y (List.mem_cons_of_mem _ hy)) (n + 1)
    rw [List.cons_append, loop_cons_hasResult x res _ n hres]
    simp [hn, hrest]

/-- The panic is met whenever the first item without a result comes after complete items
only, whatever follows it. -/
theorem IsComplete_absent_result_after_complete (o : PingOutput)
    (pre post : List (Option PingItem)) (it : PingItem)
    (hreq : o.Requested ≠ "") (hitems : o.Items = pre ++ some it :: post)
    (hit : it.Result = none)
    (hpre : ∀ item ∈ pre, ∃ x res, item = some x ∧ x.Result = some res ∧ res.NodeID ≠ "") :
    PingOutput.IsComplete (some o) = .error Panic.nilDereference := by
  have h := loop_absent_result_after_complete pre post it hit hpre 0
  simp [PingOutput.IsComplete, hreq, hitems, h]

/-! ## The completion predicates -/

/-- C1: for an envelope whose `requested` is non-empty and whose items are all present
and each carry a result, `PingOutput.IsComplete` returns normally, its answer is the one
of the plain all-items scan of the specification, and that answer is true if and only if
every item's result has a non-empty node identifier. -/
theorem PingOutput.IsComplete_eq_allItemsComplete (o : PingOutput)
    (hreq : o.Requested ≠ "")
    (hpresent : ∀ item ∈ o.Items, hasResult item) :
    PingOutput.IsComplete (some o) = .ok (allItemsComplete o) ∧
      (PingOutput.IsComplete (some o) = .ok true ↔
        ∀ it res, some it ∈ o.Items → it.Result = some res → res.NodeID ≠ "") := by
  obtain ⟨m, hm, hiff⟩ := loop_of_hasResult o.Items hpresent 0
  have hspec := allItemsComplete_iff o hpresent
  have hrun : PingOutput.IsComplete (some o) = .ok (m == o.Items.length) := by
    simp [PingOutput.IsComplete, hreq, hm]
  have hcount : (m == o.Items.length) = allItemsComplete o := by
    rw [Bool.eq_iff_iff, hspec, ← hiff]
    simp
  rw [hrun, hcount]
  refine ⟨rfl, ?_⟩
  rw [← hspec]
  constructor
  · intro h
    injection h
  · intro h
    rw [h]

/-- The witness of C1: the complete envelope of the specification. -/
theorem PingOutput.IsComplete_eq_allItemsComplete_witness :
    PingOutput.IsComplete (some sampleComplete) = .ok true ∧
      (PingOutput.IsComplete (some sampleComplete) = .ok (allItemsComplete sampleComplete) ∧
        (PingOutput.IsComplete (some sampleComplete) = .ok true ↔
          ∀ it res, some it ∈ sampleComplete.Items → it.Result = some res →
            res.NodeID ≠ "")) :=
  ⟨rfl, PingOutput.IsComplete_eq_allItemsComplete sampleComplete (by decide) (by
    intro item hmem
    simp only [sampleComplete, List.mem_cons, List.mem_singleton, List.not_mem_nil,
      or_false] at hmem
    rcases hmem with rfl | rfl
    · exact ⟨_, _, rfl, rfl⟩
    · exact ⟨_, _, rfl, rfl⟩)⟩

/-- C2, at the failing input: on an absent result `PingResult.IsComplete` panics with a
nil dereference instead of answering false, and so does `PingOutput.IsComplete` on the
partial envelope of the specification (results `n1`, absent). -/
theorem PingOutput.IsComplete_panics_on_absent_result :
    PingResult.IsComplete none = .error Panic.nilDereference ∧
      PingOutput.IsComplete (some samplePartial) = .error Panic.nilDereference ∧
      PingOutput.IsComplete (some samplePartial) ≠ .ok false :=
  ⟨rfl, rfl, by simp [PingOutput.IsComplete, samplePartial, PingOutput.IsComplete.loop,
    PingResult.IsComplete]⟩

/-- C3: an envelope whose `requested` is empty is reported not complete, whatever its
items; the call returns normally even where an item or a result is absent, so the items
are not looked at. -/
theorem PingOutput.IsComplete_requested_empty (o : PingOutput) (hreq : o.Requested = "") :
    PingOutput.IsComplete (some o) = .ok false := by
  simp [PingOutput.IsComplete, hreq]

/-- The witness of C3: an envelope with a nil item and an item without result. -/
theorem PingOutput.IsComplete_requested_empty_witness :
    sampleUnpopulated.Requested = "" ∧
      PingOutput.IsComplete (some sampleUnpopulated) = .ok false :=
  ⟨rfl, PingOutput.IsComplete_requested_empty sampleUnpopulated rfl⟩

/-- C7: on a result that is present `PingResult.IsComplete` returns normally, true exactly
when the node identifier is non-empty and false exactly when it is empty; two results
with the same node identifier get the same answer whatever their outputs. -/
theorem PingResult.IsComplete_iff_nodeID :
    (∀ r : PingResult,
      (PingResult.IsComplete (some r) = .ok true ↔ r.NodeID ≠ "") ∧
      (PingResult.IsComplete (some r) = .ok false ↔ r.NodeID = "")) ∧
    (∀ nodeID out1 out2 : String,
      PingResult.IsComplete (some { NodeID := nodeID, Output := out1 }) =
        PingResult.IsComplete (some { NodeID := nodeID, Output := out2 })) := by
  refine ⟨fun r => ?_, fun _ _ _ => rfl⟩
  by_cases hn : r.NodeID = "" <;> simp [PingResult.IsComplete, hn]

/-- C10: an envelope with a non-empty `requested` and no items is reported complete. -/
theorem PingOutput.IsComplete_no_items (o : PingOutput) (hreq : o.Requested ≠ "")
    (hitems : o.Items = []) : PingOutput.IsComplete (some o) = .ok true := by
  simp [PingOutput.IsComplete, hreq, hitems, PingOutput.IsComplete.loop]

/-- The witness of C10: target `example.com`, no items. -/
theorem PingOutput.IsComplete_no_items_witness :
    sampleNoItems.Requested ≠ "" ∧ sampleNoItems.Items = [] ∧
      PingOutput.IsComplete (some sampleNoItems) = .ok true :=
  ⟨by decide, rfl, PingOutput.IsComplete_no_items sampleNoItems (by decide) rfl⟩

/-! ## Submission and retrieval -/

/-- C4: when the JSON helper gives a body, the request is built and `do` succeeds leaving
`raw` in the destination, `RunService.Ping` returns the empty `PingID` with the error
`errors.New raw.Error`, whose message is `raw.Error`, if `raw.Error` is non-empty, and
`PingID(raw.ID)` with the nil error otherwise. -/
theorem Ping_of_do_success {U : Type} (rt : Runtime U) (s : RunService U) (c : Context)
    (ping : Option Ping) (body : Option String) (parsed : U) (raw : PingRaw)
    (hbody : rt.newJSONReader ping = (body, none))
    (hreq : rt.newRequestURL "POST" (s.client.BasePath ++ "/run/ping") = some parsed)
    (hdo : s.client.doRaw
        (some { Method := "POST", URL := parsed, Body := body, ctx := c })
        { Error := "", ID := "" } = (raw, none)) :
    (raw.Error ≠ "" →
      RunService.Ping rt s (some c) ping = .ok (⟨""⟩, some (errors.New raw.Error)) ∧
        (errors.New raw.Error).Error = raw.Error) ∧
    (raw.Error = "" → RunService.Ping rt s (some c) ping = .ok (⟨raw.ID⟩, none)) := by
  constructor
  · intro herr
    refine ⟨?_, rfl⟩
    simp [RunService.Ping, hbody, http.NewRequest, hreq, Request.WithContext, hdo, herr]
  · intro herr
    simp [RunService.Ping, hbody, http.NewRequest, hreq, Request.WithContext, hdo, herr]

/-- The witness of C4: the reply with error `invalid target` gives an error with that
message and no identifier; the reply with id `abc123` gives that identifier and the nil
error. -/
theorem Ping_of_do_success_witness :
    (RunService.Ping sampleRuntime ⟨sampleClient ⟨"invalid target", ""⟩ none none⟩
        (some Context.Background) (some samplePing)
        = .ok (⟨""⟩, some (errors.New "invalid target")) ∧
      (errors.New "invalid target").Error = "invalid target") ∧
    RunService.Ping sampleRuntime ⟨sampleClient ⟨"", "abc123"⟩ none none⟩
        (some cancelledContext) (some samplePing) = .ok (⟨"abc123"⟩, none) :=
  ⟨(Ping_of_do_success sampleRuntime
      ⟨sampleClient ⟨"invalid target", ""⟩ none none⟩ Context.Background (some samplePing)
      (some "target:example.com") sampleSubmitURL ⟨"invalid target", ""⟩ rfl rfl rfl).1
      (by decide),
   (Ping_of_do_success sampleRuntime
      ⟨sampleClient ⟨"", "abc123"⟩ none none⟩ cancelledContext (some samplePing)
      (some "target:example.com") sampleSubmitURL ⟨"", "abc123"⟩ rfl rfl rfl).2 rfl⟩

/-- C5: when `do` returns an error `e`, `RunService.Ping` returns the empty `PingID` with
that same `e`, and `RunService.PingOutput` returns the nil envelope with that same `e`,
whatever `do` has left in the destination (`raw`, `v`). -/
theorem do_error_propagated {U : Type} (rt : Runtime U) (s : RunService U)
    (ctx : Option Context) (c : Context) (ping : Option Ping) (body : Option String)
    (parsed : U) (pingID : PingID) (raw : PingRaw) (v : Option PingOutput) (e : GoError) :
    (rt.newJSONReader ping = (body, none) →
      rt.newRequestURL "POST" (s.client.BasePath ++ "/run/ping") = some parsed →
      s.client.doRaw
          (some { Method := "POST", URL := parsed, Body := body, ctx := c })
          { Error := "", ID := "" } = (raw, some e) →
      RunService.Ping rt s (some c) ping = .ok (⟨""⟩, some e)) ∧
    (s.client.doOutput
          (http.NewRequest rt "GET" (s.client.BasePath ++ "/run/ping/" ++ pingID.val) none)
          none = (v, some e) →
      RunService.PingOutput rt s ctx pingID = (none, some e)) := by
  constructor
  · intro hbody hreq hdo
    simp [RunService.Ping, hbody, http.NewRequest, hreq, Request.WithContext, hdo]
  · intro hdo
    simp [RunService.PingOutput, hdo]

/-- The witness of C5: a server error, with a `do` that has already written an identifier
and a full envelope into the destination before failing. -/
theorem do_error_propagated_witness :
    RunService.Ping sampleRuntime
        ⟨sampleClient ⟨"", "abc123"⟩ (some sampleComplete) (some sampleServerError)⟩
        (some Context.Background) (some samplePing) = .ok (⟨""⟩, some sampleServerError) ∧
    RunService.PingOutput sampleRuntime
        ⟨sampleClient ⟨"", "abc123"⟩ (some sampleComplete) (some sampleServerError)⟩
        (some Context.Background) ⟨"abc123"⟩ = (none, some sampleServerError) :=
  have h := do_error_propagated sampleRuntime
    ⟨sampleClient ⟨"", "abc123"⟩ (some sampleComplete) (some sampleServerError)⟩
    (some Context.Background) Context.Background (some samplePing)
    (some "target:example.com") sampleSubmitURL ⟨"abc123"⟩ ⟨"", "abc123"⟩
    (some sampleComplete) sampleServerError
  ⟨h.1 rfl rfl rfl, h.2 rfl⟩

/-- The request of `RunService.Ping` carries the caller's context: the result of the call
is what follows from `do` on the request whose context is `c`. -/
theorem Ping_request_carries_ctx {U : Type} (rt : Runtime U) (s : RunService U)
    (c : Context) (ping : Option Ping) (body : Option String) (parsed : U)
    (hbody : rt.newJSONReader ping = (body, none))
    (hreq : rt.newRequestURL "POST" (s.client.BasePath ++ "/run/ping") = some parsed) :
    Request.WithContext (http.NewRequest rt "POST" (s.client.BasePath ++ "/run/ping") body)
        (some c)
      = .ok (some { Method := "POST", URL := parsed, Body := body, ctx := c }) ∧
    RunService.Ping rt s (some c) ping =
      match s.client.doRaw
          (some { Method := "POST", URL := parsed, Body := body, ctx := c })
          { Error := "", ID := "" } with
      | (_, some err) => .ok (⟨""⟩, some err)
      | (raw, none) =>
        if raw.Error != "" then .ok (⟨""⟩, some (errors.New raw.Error))
        else .ok (⟨raw.ID⟩, none) := by
  constructor
  · simp [http.NewRequest, hreq, Request.WithContext]
  · simp only [RunService.Ping, hbody, http.NewRequest, hreq, Request.WithContext]

/-- The request of `RunService.PingOutput` never carries the caller's context: whenever a
request is built it runs under the background context, and the result of the call does
not depend on `ctx`. -/
theorem PingOutput_request_ignores_ctx {U : Type} (rt : Runtime U) (s : RunService U)
    (ctx ctx2 : Option Context) (pingID : PingID) :
    (∀ req, http.NewRequest rt "GET" (s.client.BasePath ++ "/run/ping/" ++ pingID.val) none
        = some req → req.ctx = Context.Background) ∧
    RunService.PingOutput rt s ctx pingID = RunService.PingOutput rt s ctx2 pingID := by
  refine ⟨?_, rfl⟩
  intro req h
  unfold http.NewRequest at h
  split at h
  · injection h with h
    rw [← h]
  · exact absurd h (by simp)

/-- C6, at the failing input: with a client that honours the context of its request and a
caller whose context is cancelled, `RunService.Ping` ends with the cancellation error,
but `RunService.PingOutput` still gets the backend's answer: its request runs under the
background context, not under the caller's. -/
theorem PingOutput_not_under_caller_context :
    RunService.Ping sampleRuntime ⟨contextAwareClient⟩ (some cancelledContext)
        (some samplePing) = .ok (⟨""⟩, some contextCanceled) ∧
    RunService.PingOutput sampleRuntime ⟨contextAwareClient⟩ (some cancelledContext)
        ⟨"abc123"⟩ = (some sampleComplete, none) ∧
    http.NewRequest sampleRuntime "GET"
        (contextAwareClient.BasePath ++ "/run/ping/" ++ "abc123") none
      = some { Method := "GET", URL := sampleOutputURL, Body := none,
               ctx := Context.Background } :=
  ⟨rfl, rfl, rfl⟩

/-- C9: when `do` succeeds, `RunService.PingOutput` returns what `do` left in the
destination, with the nil error, whatever it is. -/
theorem PingOutput_of_do_success {U : Type} (rt : Runtime U) (s : RunService U)
    (ctx : Option Context) (pingID : PingID) (v : Option PingOutput)
    (hdo : s.client.doOutput
        (http.NewRequest rt "GET" (s.client.BasePath ++ "/run/ping/" ++ pingID.val) none)
        none = (v, none)) :
    RunService.PingOutput rt s ctx pingID = (v, none) := by
  simp [RunService.PingOutput, hdo]

/-- The witness of C9: an envelope with empty `requested` and empty `items` is returned as
a success. -/
theorem PingOutput_of_do_success_witness :
    RunService.PingOutput sampleRuntime
        ⟨sampleClient ⟨"", ""⟩ (some sampleEmptyEnvelope) none⟩ (some Context.Background)
        ⟨"abc123"⟩ = (some sampleEmptyEnvelope, none) :=
  PingOutput_of_do_success sampleRuntime
    ⟨sampleClient ⟨"", ""⟩ (some sampleEmptyEnvelope) none⟩ (some Context.Background)
    ⟨"abc123"⟩ (some sampleEmptyEnvelope) rfl

end Perfops
